import Mathlib

/-!
Verification of two generative-model training scripts
(a3_simple_template.py and a3_vae_template.py) against their
natural-language specification.  Tensors are modelled as lists of rows
over the rationals; the framework transcendental primitives (exp, log)
are kept as abstract function parameters, since every property under
study relates compositions of these primitives rather than their
analytic values.  Python integer arithmetic is modelled exactly, and
the single true division feeding a loop bound is modelled over the
rationals.
-/

/-- Rank-2 tensor model: a list of rows of rationals. -/
abbrev Mat : Type := List (List ℚ)

/-- Abstract transcendental primitives supplied by the ML framework. -/
structure TFMath where
  exp : ℚ → ℚ
  log : ℚ → ℚ

/-- Model of tf.sigmoid built from the abstract exponential. -/
def sigmoid (ops : TFMath) (t : ℚ) : ℚ := 1 / (1 + ops.exp (-t))

/-- Elementwise map over a rank-2 tensor. -/
def ewMap (f : ℚ → ℚ) (m : Mat) : Mat := m.map (fun r => r.map f)

/-- Elementwise binary operation over two rank-2 tensors of equal shape. -/
def ewZip (f : ℚ → ℚ → ℚ) (a b : Mat) : Mat := List.zipWith (List.zipWith f) a b

/-- Scalar-tensor broadcast multiplication. -/
def scaleMat (c : ℚ) (m : Mat) : Mat := ewMap (fun t => c * t) m

/-- Model of tf.reduce_sum with reduction_indices=1: one sum per row. -/
def reduceSum1 (m : Mat) : List ℚ := m.map (fun r => r.sum)

/-- Model of tf.reduce_mean over a rank-1 tensor. -/
def reduceMean (v : List ℚ) : ℚ := v.sum / (v.length : ℚ)

/-- Model of tf.shape for a rank-2 tensor. -/
def tfShape (m : Mat) : List ℕ := [m.length, (m.headD []).length]

/-- Entry access in a rank-2 tensor, none when out of range. -/
def entry? (m : Mat) (i j : ℕ) : Option ℚ := (m[i]?).bind (fun r => r[j]?)

/-- Model of tf.nn.sigmoid_cross_entropy_with_logits on one scalar pair:
the Bernoulli cross-entropy between labels and the sigmoid of the logits. -/
def sigmoidCrossEntropy (ops : TFMath) (logits labels : ℚ) : ℚ :=
  -(labels * ops.log (sigmoid ops logits) + (1 - labels) * ops.log (1 - sigmoid ops logits))

/-- All values produced inside VariationalAutoencoder.inference_network:
the source returns the pair (x_hat, ELBO) and stores ELBO on self. -/
structure InfResult where
  enc_mu : Mat
  enc_logsd : Mat
  epsilon : Mat
  z : Mat
  x_hat : Mat
  KLD : List ℚ
  CE_loss : List ℚ
  ELBO : ℚ

/-- Model of VariationalAutoencoder.inference_network (a3_vae_template.py,
lines 116-139).  The encoder and decoder networks are passed as abstract
functions, since no claim depends on their internals, and randn stands
for tf.random_normal, called on the shape of enc_logsd as in the source. -/
def inference_network (ops : TFMath) (encoder : Mat → Mat × Mat) (decoder : Mat → Mat)
    (randn : List ℕ → Mat) (x : Mat) : InfResult :=
  let enc_mu := (encoder x).1
  let enc_logsd := (encoder x).2
  let epsilon := randn (tfShape enc_logsd)
  let encoder_distrib := ewMap ops.exp (scaleMat (1/2) enc_logsd)
  let z := ewZip (fun a b => a + b) enc_mu (ewZip (fun a b => a * b) encoder_distrib epsilon)
  let x_hat := decoder z
  let KLD := (reduceSum1 (ewZip (fun l m => 1 + l - m ^ 2 - ops.exp l) enc_logsd enc_mu)).map
    (fun s => -(1/2) * s)
  let CE_loss := reduceSum1 (ewZip (fun lg lb => sigmoidCrossEntropy ops lg lb) x_hat x)
  let ELBO := -reduceMean (List.zipWith (fun a b => a + b) KLD CE_loss)
  ⟨enc_mu, enc_logsd, epsilon, z, x_hat, KLD, CE_loss, ELBO⟩

/-- Framework optimizer classes referenced by the scripts. -/
inductive TFOptimizer where
  | sgd
  | adadelta
  | adagrad
  | adam
  | rmsprop
deriving DecidableEq

/-- Optimizer names accepted by the training functions; these model the
string keys of OPTIMIZER_DICT in a3_simple_template.py, lines 6-11. -/
inductive OptimizerName where
  | sgd
  | adadelta
  | adagrad
  | adam
  | rmsprop
deriving DecidableEq

/-- Model of OPTIMIZER_DICT (a3_simple_template.py, lines 6-11). -/
def OPTIMIZER_DICT : OptimizerName → TFOptimizer
  | .sgd => .sgd
  | .adadelta => .adadelta
  | .adagrad => .adagrad
  | .adam => .adam
  | .rmsprop => .rmsprop

/-- An optimization step: which optimizer class built it, with what
learning rate, and which scalar objective its minimize call received. -/
structure TrainOp where
  opt : TFOptimizer
  lr : ℚ
  objective : ℚ
deriving DecidableEq

/-- Model of VariationalAutoencoder.train_step (a3_vae_template.py,
lines 141-144): AdamOptimizer(learning_rate).minimize(-self.ELBO).
The lower_bound argument is ignored by the source; self_ELBO is the
ELBO most recently stored on self by inference_network. -/
def VAE_train_step (learning_rate lower_bound self_ELBO : ℚ) : TrainOp :=
  ⟨TFOptimizer.adam, learning_rate, -self_ELBO⟩

/-- Model of NaiveBayesModel.train_step (a3_simple_template.py,
lines 118-125): flags[0](flags[1]).minimize(loss). -/
def NB_train_step (loss : ℚ) (flags : TFOptimizer × ℚ) : TrainOp :=
  ⟨flags.1, flags.2, loss⟩

/-- The train op built by train_simple_generative_model_on_mnist
(a3_simple_template.py, lines 161-162): the flags pair passes
OPTIMIZER_DICT applied to the literal key rmsprop, not to the
optimizer argument of the function. -/
def simple_script_train_op (optimizer : OptimizerName) (learning_rate loss : ℚ) : TrainOp :=
  NB_train_step loss (OPTIMIZER_DICT OptimizerName.rmsprop, learning_rate)

/-- The train op built by train_vae_on_mnist (a3_vae_template.py,
line 240): vae.train_step(learning_rate, train_ELBO), which uses Adam
unconditionally; the optimizer argument of the function is unused. -/
def vae_script_train_op (optimizer : OptimizerName) (learning_rate train_ELBO self_ELBO : ℚ) : TrainOp :=
  VAE_train_step learning_rate train_ELBO self_ELBO

/-- Model of (pixels > 0.5).astype(dtype): 1 for a strictly greater
entry, 0 otherwise. -/
def binarizePixel (p : ℚ) : ℚ := if 1/2 < p then 1 else 0

/-- Model of load_mnist_images (both scripts): the raw MNIST arrays are
inputs, and the binarize flag thresholds every entry at 0.5. -/
def load_mnist_images (binarize : Bool) (raw_train raw_test : Mat) : Mat × Mat :=
  if binarize then (ewMap binarizePixel raw_train, ewMap binarizePixel raw_test)
  else (raw_train, raw_test)

/-- Observable side effects of one training-loop iteration. -/
inductive Effect where
  | printLine (hasTrainLoss hasTestLoss : Bool)
  | drawSamples (n : ℕ)
  | saveFigure
  | addSummary
deriving DecidableEq

/-- Whether an effect is a printed line. -/
def Effect.isPrint : Effect → Bool
  | .printLine _ _ => true
  | _ => false

/-- Effects of iteration i of train_simple_generative_model_on_mnist
(a3_simple_template.py, lines 171-185): when i % test_every == 0 the
script prints one line holding the training and test losses, draws
plot_n_samples samples, and saves one figure. -/
def simple_iteration_effects (test_every plot_n_samples i : ℕ) : List Effect :=
  if i % test_every = 0 then
    [Effect.printLine true true, Effect.drawSamples plot_n_samples, Effect.saveFigure]
  else []

/-- Effects of iteration i of train_vae_on_mnist (a3_vae_template.py,
lines 257-273): the conditional block prints one line holding both
losses, draws plot_n_samples samples and saves one figure via
vae.sample; two scalar summaries are appended every iteration. -/
def vae_iteration_effects (test_every plot_n_samples i : ℕ) : List Effect :=
  (if i % test_every = 0 then
    [Effect.printLine true true, Effect.drawSamples plot_n_samples, Effect.saveFigure]
  else []) ++ [Effect.addSummary, Effect.addSummary]

/-- Python int() on a rational: truncation toward zero. -/
def pyInt (q : ℚ) : ℤ := if 0 ≤ q then ⌊q⌋ else ⌈q⌉

/-- Model of int(n_steps) where n_steps = (n_epochs * n_samples) /
minibatch_size under Python true division, which both training
functions use as their iteration count. -/
def script_n_steps (n_epochs n_samples minibatch_size : ℕ) : ℕ :=
  (pyInt (((n_epochs * n_samples : ℕ) : ℚ) / (minibatch_size : ℚ))).toNat

/-- Model of the for-loop over range(int(n_steps)): the list of the
effects of each executed iteration; totality of this function models
termination of the loop. -/
def training_loop (steps : ℕ) (body : ℕ → List Effect) : List (List Effect) :=
  (List.range steps).map body

/-- Shape behaviour of _linear_layer (a3_vae_template.py, lines 49-66):
tf.matmul of an input of shape s with a kernel of shape
[kernel_lower_dim, kernel_upper_dim] requires s.2 = kernel_lower_dim. -/
def linearShape (s : ℕ × ℕ) (lower upper : ℕ) : Option (ℕ × ℕ) :=
  if s.2 = lower then some (s.1, upper) else none

/-- Shape behaviour of the hidden-layer loop of decoder
(a3_vae_template.py, lines 99-108): the state carries the running
activation shape and last_upper_dim; relu and dropout preserve shape. -/
def layersShape : List (ℕ × ℕ) → (ℕ × ℕ) → ℕ → Option ((ℕ × ℕ) × ℕ)
  | [], s, lu => some (s, lu)
  | p :: rest, s, _ =>
    match linearShape s p.1 p.2 with
    | none => none
    | some s2 => layersShape rest s2 p.2

/-- Shape behaviour of VariationalAutoencoder.decoder (a3_vae_template.py,
lines 94-114): decoder_dims = z_dim :: decoder_hidden_sizes, the loop
walks consecutive pairs of decoder_dims with last_upper_dim starting at
0, then dec_mu applies a final kernel [last_upper_dim, 784]. -/
def decoderShape (z_dim : ℕ) (decoder_hidden_sizes : List ℕ) (s : ℕ × ℕ) : Option (ℕ × ℕ) :=
  let dims := z_dim :: decoder_hidden_sizes
  (layersShape (dims.zip dims.tail) s 0).bind (fun su => linearShape su.1 su.2 784)

/-- Shape of the latent draw in VariationalAutoencoder.sample
(a3_vae_template.py, line 155): tf.random_normal(shape=[1, 2]),
independent of the z_dim the model was constructed with. -/
def sampleLatentShape (z_dim : ℕ) : ℕ × ℕ := (1, 2)

/-- Model of np.tile of one row n times along the second axis. -/
def tileRow (n : ℕ) (r : List ℚ) : List ℚ := (List.replicate n r).flatten

/-- Model of tf.tile(x, [1, n]) on a rank-2 tensor. -/
def tile2 (n : ℕ) (m : Mat) : Mat := m.map (tileRow n)

/-- Split a flat list into k consecutive chunks of length n, modelling
one reshape axis. -/
def chunks {α : Type} (k n : ℕ) (xs : List α) : List (List α) :=
  match k with
  | 0 => []
  | Nat.succ k2 => xs.take n :: chunks k2 n (xs.drop n)

/-- Model of tf.reshape of a flattened tensor to [d0, d1, d2]. -/
def reshape3 (d0 d1 d2 : ℕ) (flat : List ℚ) : List Mat :=
  (chunks d0 (d1 * d2) flat).map (chunks d1 d2)

/-- State of NaiveBayesModel (a3_simple_template.py, lines 33-55):
variables w, b, c and the shape numbers recorded from w_init. -/
structure NBModel where
  w : Mat
  b : List ℚ
  c : List ℚ
  n_labels : ℕ
  n_dims : ℕ

/-- Log-probability of x under a Bernoulli with parameter p, the value
tf.distributions.Bernoulli(probs=p).log_prob(x) computes. -/
def bernoulliLogProb (ops : TFMath) (p x : ℚ) : ℚ :=
  x * ops.log p + (1 - x) * ops.log (1 - p)

/-- Model of NaiveBayesModel.log_p_x_given_z (a3_simple_template.py,
lines 57-72): tile x by [1, n_labels], reshape to
[batch_size, n_labels, n_dims], take Bernoulli log-probabilities with
probs sigmoid(w + c) broadcast over the batch axis, and sum axis 2. -/
def log_p_x_given_z (ops : TFMath) (m : NBModel) (x : Mat) : Mat :=
  let batch_size := x.length
  let X3 := reshape3 batch_size m.n_labels m.n_dims (tile2 m.n_labels x).flatten
  let probs := ewMap (sigmoid ops) (m.w.map (fun row => List.zipWith (fun a b => a + b) row m.c))
  let logp := X3.map (fun Xi =>
    List.zipWith (fun prow xrow => List.zipWith (bernoulliLogProb ops) prow xrow) probs Xi)
  logp.map (fun Xi => Xi.map (fun r => r.sum))

/-- Model of tf.nn.log_softmax on a rank-1 tensor. -/
def logSoftmax (ops : TFMath) (v : List ℚ) : List ℚ :=
  v.map (fun t => t - ops.log (v.map ops.exp).sum)

/-- Model of tf.reduce_logsumexp on a rank-1 tensor. -/
def logsumexp (ops : TFMath) (v : List ℚ) : ℚ := ops.log (v.map ops.exp).sum

/-- Model of NaiveBayesModel.log_p_x (a3_simple_template.py, lines
74-83): logsumexp of log_softmax(b) + log_p_x_given_z(x) along the
last axis. -/
def log_p_x (ops : TFMath) (m : NBModel) (x : Mat) : List ℚ :=
  let log_pxz := log_p_x_given_z ops m x
  (log_pxz.map (fun row => List.zipWith (fun a b => a + b) (logSoftmax ops m.b) row)).map
    (logsumexp ops)

/-- Textbook closed form of KL(N(mu, sigma^2) || N(0, I)) for one
sample, as the specification states it: -1/2 times the sum over latent
dimensions of (1 + enc_logsd - enc_mu^2 - exp(enc_logsd)). -/
def klTextbookForm (ops : TFMath) (mu lsd : List ℚ) : ℚ :=
  -(1/2) * (List.zipWith (fun l m => 1 + l - m ^ 2 - ops.exp l) lsd mu).sum

/-- Per-sample Bernoulli sigmoid cross-entropy between decoder logits
and a data row, as the specification states it. -/
def ceRowForm (ops : TFMath) (logits labels : List ℚ) : ℚ :=
  (List.zipWith (sigmoidCrossEntropy ops) logits labels).sum

/-- ELBO as the specification states it: the negated mean over the
batch of per-sample KL divergence plus per-sample cross-entropy. -/
def elboSpecForm (ops : TFMath) (mu lsd x_hat x : Mat) : ℚ :=
  -((List.zipWith (fun a b => a + b)
      (List.zipWith (klTextbookForm ops) mu lsd)
      (List.zipWith (ceRowForm ops) x_hat x)).sum / (x.length : ℚ))

/-- Mixture-model log-likelihood of one data row as the specification
states it: logsumexp over the categories k of log_softmax(b)[k] plus
the sum over dimensions j of the Bernoulli log-probability of the
entry under parameter sigmoid(w + c)[k][j]. -/
def logPxSpecRow (ops : TFMath) (m : NBModel) (xi : List ℚ) : ℚ :=
  logsumexp ops (List.zipWith
    (fun bk wk => bk + (List.zipWith
        (fun wcj xij => bernoulliLogProb ops (sigmoid ops wcj) xij)
        (List.zipWith (fun a b => a + b) wk m.c) xi).sum)
    (logSoftmax ops m.b) m.w)

theorem zipWith_entry {α β γ : Type} (f : α → β → γ) (a : List α) (b : List β) (i : ℕ) :
    (List.zipWith f a b)[i]? = (a[i]?).bind (fun x => (b[i]?).map (f x)) := by
  rw [List.getElem?_zipWith']
  cases a[i]? <;> simp

theorem entry?_ewMap (f : ℚ → ℚ) (m : Mat) (i j : ℕ) :
    entry? (ewMap f m) i j = (entry? m i j).map f := by
  simp only [entry?, ewMap, List.getElem?_map]
  cases m[i]? with
  | none => rfl
  | some r => simp [List.getElem?_map]

theorem script_n_steps_eq (e s m : ℕ) : script_n_steps e s m = e * s / m := by
  have h0 : (0 : ℚ) ≤ ((e * s : ℕ) : ℚ) / (m : ℚ) := by positivity
  unfold script_n_steps pyInt
  rw [if_pos h0, Int.floor_toNat, Nat.floor_div_nat, Nat.floor_natCast]

/-- C5: evaluation of the optimizer-selection code at the failing input
optimizer = sgd: the simple script builds its train op from RMSProp and
the VAE script from Adam, while OPTIMIZER_DICT designates
GradientDescentOptimizer for that name. -/
theorem optimizer_name_ignored :
    (simple_script_train_op OptimizerName.sgd (1/100) 0).opt = TFOptimizer.rmsprop ∧
    (vae_script_train_op OptimizerName.sgd (1/1000) 0 0).opt = TFOptimizer.adam ∧
    OPTIMIZER_DICT OptimizerName.sgd = TFOptimizer.sgd ∧
    TFOptimizer.rmsprop ≠ TFOptimizer.sgd ∧ TFOptimizer.adam ≠ TFOptimizer.sgd := by
  refine ⟨rfl, rfl, rfl, ?_, ?_⟩ <;> decide

/-- C6: for every n_epochs and every positive minibatch_size, each
training loop executes exactly floor(n_epochs * n_samples /
minibatch_size) iterations; totality of training_loop models its
termination. -/
theorem training_loop_iteration_count (n_epochs n_samples minibatch_size : ℕ)
    (body : ℕ → List Effect) (hmb : 0 < minibatch_size) :
    (training_loop (script_n_steps n_epochs n_samples minibatch_size) body).length
      = n_epochs * n_samples / minibatch_size := by
  simp [training_loop, script_n_steps_eq]

theorem training_loop_iteration_count_witness :
    0 < 3 ∧ (training_loop (script_n_steps 2 5 3) (fun _ => [])).length = 2 * 5 / 3 :=
  ⟨by decide, training_loop_iteration_count 2 5 3 (fun _ => []) (by decide)⟩

/-- C7: in both training loops an iteration prints a loss line and
saves a sample-visualization figure exactly when i % test_every = 0,
and at every such iteration the printed line holds both the training
and the test loss and plot_n_samples samples are drawn before the
figure is written. -/
theorem loop_logging_iff_test_every (test_every plot_n_samples i : ℕ)
    (hte : 0 < test_every) :
    (((simple_iteration_effects test_every plot_n_samples i).any Effect.isPrint = true)
        ↔ i % test_every = 0) ∧
    ((Effect.saveFigure ∈ simple_iteration_effects test_every plot_n_samples i)
        ↔ i % test_every = 0) ∧
    (i % test_every = 0 →
      Effect.printLine true true ∈ simple_iteration_effects test_every plot_n_samples i ∧
      Effect.drawSamples plot_n_samples ∈ simple_iteration_effects test_every plot_n_samples i) ∧
    (((vae_iteration_effects test_every plot_n_samples i).any Effect.isPrint = true)
        ↔ i % test_every = 0) ∧
    ((Effect.saveFigure ∈ vae_iteration_effects test_every plot_n_samples i)
        ↔ i % test_every = 0) ∧
    (i % test_every = 0 →
      Effect.printLine true true ∈ vae_iteration_effects test_every plot_n_samples i ∧
      Effect.drawSamples plot_n_samples ∈ vae_iteration_effects test_every plot_n_samples i) := by
  by_cases hmod : i % test_every = 0 <;>
    simp [simple_iteration_effects, vae_iteration_effects, Effect.isPrint, hmod]

theorem loop_logging_iff_test_every_witness :
    0 < 2 ∧ Effect.printLine true true ∈ simple_iteration_effects 2 16 4 :=
  ⟨by decide, ((loop_logging_iff_test_every 2 16 4 (by decide)).2.2.1 (by decide)).1⟩

/-- C8: with binarize every entry of both returned arrays is 0 or 1
and is 1 exactly when the raw pixel exceeds 0.5; without binarize the
data is returned unchanged. -/
theorem load_mnist_binarize_spec (raw_train raw_test : Mat) :
    load_mnist_images false raw_train raw_test = (raw_train, raw_test) ∧
    (∀ i j p, entry? raw_train i j = some p →
      ∃ q, entry? (load_mnist_images true raw_train raw_test).1 i j = some q ∧
        (q = 0 ∨ q = 1) ∧ (q = 1 ↔ 1/2 < p)) ∧
    (∀ i j p, entry? raw_test i j = some p →
      ∃ q, entry? (load_mnist_images true raw_train raw_test).2 i j = some q ∧
        (q = 0 ∨ q = 1) ∧ (q = 1 ↔ 1/2 < p)) := by
  refine ⟨rfl, ?_, ?_⟩ <;>
  · intro i j p hp
    refine ⟨binarizePixel p, ?_, ?_, ?_⟩
    · simp [load_mnist_images, entry?_ewMap, hp]
    · unfold binarizePixel; split <;> simp
    · unfold binarizePixel; split <;> simp_all

theorem load_mnist_binarize_spec_witness :
    ∃ q, entry? (load_mnist_images true [[(3 : ℚ)/4]] [[(1 : ℚ)/4]]).1 0 0 = some q ∧
      (q = 0 ∨ q = 1) ∧ (q = 1 ↔ 1/2 < (3 : ℚ)/4) :=
  (load_mnist_binarize_spec [[(3 : ℚ)/4]] [[(1 : ℚ)/4]]).2.1 0 0 ((3 : ℚ)/4) rfl

theorem layersShape_chain (l : List ℕ) : ∀ a r lu : ℕ,
    layersShape ((a :: l).zip l) (r, a) lu = some ((r, l.getLastD a), l.getLastD lu) := by
  induction l with
  | nil => intro a r lu; rfl
  | cons b t ih =>
    intro a r lu
    have h1 : linearShape (r, a) a b = some (r, b) := by simp [linearShape]
    calc layersShape ((a :: b :: t).zip (b :: t)) (r, a) lu
        = layersShape ((b :: t).zip t) (r, b) b := by
          rw [List.zip_cons_cons]; simp [layersShape, h1]
      _ = some ((r, t.getLastD b), t.getLastD b) := ih b r b
      _ = some ((r, (b :: t).getLastD a), (b :: t).getLastD lu) := by
          rw [List.getLastD_cons, List.getLastD_cons]

/-- C9: sample draws latents of the fixed shape [1, 2] whatever z_dim
is, the decoder rejects any input whose feature dimension differs from
z_dim, and under the precondition z_dim = 2 the decoder accepts the
latent drawn by sample, so the shape-mismatch failure is unreachable. -/
theorem vae_sample_decoder_shape_safe (z_dim h0 : ℕ) (rest : List ℕ) (hz : z_dim = 2) :
    sampleLatentShape z_dim = (1, 2) ∧
    (∀ s : ℕ × ℕ, s.2 ≠ z_dim → decoderShape z_dim (h0 :: rest) s = none) ∧
    (decoderShape z_dim (h0 :: rest) (sampleLatentShape z_dim)).isSome := by
  subst hz
  refine ⟨rfl, ?_, ?_⟩
  · intro s hs
    show (layersShape ((2 :: h0 :: rest).zip (h0 :: rest)) s 0).bind _ = none
    rw [List.zip_cons_cons]
    simp [layersShape, linearShape, hs]
  · have h := layersShape_chain rest h0 1 h0
    show ((layersShape ((2 :: h0 :: rest).zip (h0 :: rest)) (1, 2) 0).bind _).isSome = true
    rw [List.zip_cons_cons]
    simp [layersShape, linearShape, h]

theorem vae_sample_decoder_shape_safe_witness :
    2 = 2 ∧ (decoderShape 2 [200, 200] (sampleLatentShape 2)).isSome :=
  ⟨rfl, (vae_sample_decoder_shape_safe 2 200 [200] rfl).2.2⟩

theorem entry?_ewZip (f : ℚ → ℚ → ℚ) (a b : Mat) (i j : ℕ) :
    entry? (ewZip f a b) i j = (entry? a i j).bind (fun u => (entry? b i j).map (f u)) := by
  simp only [entry?, ewZip, zipWith_entry]
  cases ha : a[i]? with
  | none => rfl
  | some ra =>
    cases hb : b[i]? with
    | none => simp
    | some rb => simp [zipWith_entry]

theorem mapsum_ewZip (f : ℚ → ℚ → ℚ) (g : ℚ → ℚ) (a b : Mat) :
    ((ewZip f a b).map (fun r => r.sum)).map g
      = List.zipWith (fun ra rb => g (List.zipWith f ra rb).sum) a b := by
  show ((List.zipWith (List.zipWith f) a b).map (fun r => r.sum)).map g = _
  rw [List.map_map, List.map_zipWith]
  rfl

theorem infer_KLD_eq (ops : TFMath) (encoder : Mat → Mat × Mat) (decoder : Mat → Mat)
    (randn : List ℕ → Mat) (x : Mat) :
    (inference_network ops encoder decoder randn x).KLD
      = List.zipWith (klTextbookForm ops) (encoder x).1 (encoder x).2 := by
  show ((ewZip (fun l m => 1 + l - m ^ 2 - ops.exp l) (encoder x).2 (encoder x).1).map
      (fun r => r.sum)).map (fun s => -(1/2) * s) = _
  rw [mapsum_ewZip, List.zipWith_comm]
  rfl

theorem infer_CE_eq (ops : TFMath) (encoder : Mat → Mat × Mat) (decoder : Mat → Mat)
    (randn : List ℕ → Mat) (x : Mat) :
    (inference_network ops encoder decoder randn x).CE_loss
      = List.zipWith (ceRowForm ops)
          (inference_network ops encoder decoder randn x).x_hat x := by
  show ((List.zipWith (List.zipWith (fun lg lb => sigmoidCrossEntropy ops lg lb))
      (inference_network ops encoder decoder randn x).x_hat x).map (fun r => r.sum)) = _
  rw [List.map_zipWith]
  rfl

/-- C2: the KL-divergence tensor computed inside inference_network is,
sample by sample, the textbook closed form -1/2 times the sum over
latent dimensions of (1 + enc_logsd - enc_mu^2 - exp(enc_logsd)). -/
theorem vae_kld_textbook_form (ops : TFMath) (encoder : Mat → Mat × Mat)
    (decoder : Mat → Mat) (randn : List ℕ → Mat) (x : Mat) :
    (inference_network ops encoder decoder randn x).KLD
      = List.zipWith (klTextbookForm ops) (encoder x).1 (encoder x).2 :=
  infer_KLD_eq ops encoder decoder randn x

/-- C3: inside inference_network the epsilon tensor is the standard
normal draw requested at the shape of enc_logsd, the decoder is fed
exactly the latent z, and every entry of z is
enc_mu + exp(0.5 * enc_logsd) * epsilon. -/
theorem vae_reparameterization_spec (ops : TFMath) (encoder : Mat → Mat × Mat)
    (decoder : Mat → Mat) (randn : List ℕ → Mat) (x : Mat) (i j : ℕ) (muv lsdv epsv : ℚ)
    (hmu : entry? (encoder x).1 i j = some muv)
    (hlsd : entry? (encoder x).2 i j = some lsdv)
    (heps : entry? (inference_network ops encoder decoder randn x).epsilon i j = some epsv) :
    (inference_network ops encoder decoder randn x).epsilon
        = randn (tfShape (encoder x).2) ∧
    (inference_network ops encoder decoder randn x).x_hat
        = decoder (inference_network ops encoder decoder randn x).z ∧
    entry? (inference_network ops encoder decoder randn x).z i j
        = some (muv + ops.exp (1/2 * lsdv) * epsv) := by
  refine ⟨rfl, rfl, ?_⟩
  have heps2 : entry? (randn (tfShape (encoder x).2)) i j = some epsv := heps
  show entry? (ewZip (fun a b => a + b) (encoder x).1
      (ewZip (fun a b => a * b) (ewMap ops.exp (scaleMat (1/2) (encoder x).2))
        (randn (tfShape (encoder x).2)))) i j = some (muv + ops.exp (1/2 * lsdv) * epsv)
  rw [entry?_ewZip, entry?_ewZip, hmu, heps2]
  simp [scaleMat, entry?_ewMap, hlsd]

theorem vae_reparameterization_spec_witness :
    entry? (inference_network ⟨fun t => t, fun t => t⟩ (fun m => (m, m)) (fun m => m)
        (fun _ => [[5]]) [[3]]).z 0 0 = some (3 + 1/2 * 3 * 5) :=
  (vae_reparameterization_spec ⟨fun t => t, fun t => t⟩ (fun m => (m, m)) (fun m => m)
    (fun _ => [[5]]) [[3]] 0 0 3 3 5 rfl rfl rfl).2.2

/-- C1: inference_network returns the decoder logits for the
reparameterized latent together with an ELBO equal to the negated mean
over the batch of per-sample KL plus per-sample sigmoid cross-entropy
between those logits and the input, and train_step builds an
optimization step whose minimized objective is the negation of the
stored ELBO. -/
theorem vae_inference_network_elbo_spec (ops : TFMath) (encoder : Mat → Mat × Mat)
    (decoder : Mat → Mat) (randn : List ℕ → Mat) (x : Mat) (learning_rate lower_bound : ℚ)
    (Hmu : (encoder x).1.length = x.length)
    (Hlsd : (encoder x).2.length = x.length)
    (Hdec : ∀ m : Mat, (decoder m).length = m.length)
    (Hrandn : tfShape (randn (tfShape (encoder x).2)) = tfShape (encoder x).2) :
    (inference_network ops encoder decoder randn x).x_hat
        = decoder (inference_network ops encoder decoder randn x).z ∧
    (inference_network ops encoder decoder randn x).ELBO
        = elboSpecForm ops (encoder x).1 (encoder x).2
            (inference_network ops encoder decoder randn x).x_hat x ∧
    (VAE_train_step learning_rate lower_bound
        (inference_network ops encoder decoder randn x).ELBO).objective
      = -(inference_network ops encoder decoder randn x).ELBO := by
  refine ⟨rfl, ?_, rfl⟩
  have heps : (randn (tfShape (encoder x).2)).length = (encoder x).2.length := by
    have h2 := Hrandn
    simp only [tfShape, List.cons.injEq] at h2
    exact h2.1
  have hxh : (inference_network ops encoder decoder randn x).x_hat.length = x.length := by
    show (decoder (ewZip (fun a b => a + b) (encoder x).1
        (ewZip (fun a b => a * b) (ewMap ops.exp (scaleMat (1/2) (encoder x).2))
          (randn (tfShape (encoder x).2))))).length = x.length
    rw [Hdec]
    simp only [ewZip, ewMap, scaleMat, List.length_zipWith, List.length_map, Hmu, Hlsd, heps]
    omega
  show -reduceMean (List.zipWith (fun a b => a + b)
      (inference_network ops encoder decoder randn x).KLD
      (inference_network ops encoder decoder randn x).CE_loss) = _
  rw [infer_KLD_eq ops encoder decoder randn x, infer_CE_eq ops encoder decoder randn x]
  have hlen : (List.zipWith (fun a b => a + b)
      (List.zipWith (klTextbookForm ops) (encoder x).1 (encoder x).2)
      (List.zipWith (ceRowForm ops)
        (inference_network ops encoder decoder randn x).x_hat x)).length = x.length := by
    simp only [List.length_zipWith, Hmu, Hlsd, hxh]
    omega
  simp [elboSpecForm, reduceMean, hlen]

theorem vae_inference_network_elbo_spec_witness :
    (inference_network ⟨fun t => t, fun t => t⟩ (fun m => (m, m)) (fun m => m)
        (fun _ => [[0]]) [[0]]).ELBO
      = elboSpecForm ⟨fun t => t, fun t => t⟩ [[0]] [[0]]
          (inference_network ⟨fun t => t, fun t => t⟩ (fun m => (m, m)) (fun m => m)
            (fun _ => [[0]]) [[0]]).x_hat [[0]] :=
  (vae_inference_network_elbo_spec ⟨fun t => t, fun t => t⟩ (fun m => (m, m)) (fun m => m)
    (fun _ => [[0]]) [[0]] 1 0 rfl rfl (fun m => rfl) rfl).2.1

theorem chunks_flatten {α : Type} (L : ℕ) (rows : List (List α))
    (h : ∀ r ∈ rows, r.length = L) :
    chunks rows.length L rows.flatten = rows := by
  induction rows with
  | nil => rfl
  | cons r t ih =>
    have hr : r.length = L := h r (List.mem_cons_self r t)
    have ht : ∀ s ∈ t, s.length = L := fun s hs => h s (List.mem_cons_of_mem r hs)
    show (r ++ t.flatten).take L :: chunks t.length L ((r ++ t.flatten).drop L) = r :: t
    rw [List.take_left' hr, List.drop_left' hr, ih ht]

theorem chunks_tileRow (n d : ℕ) (row : List ℚ) (h : row.length = d) :
    chunks n d (tileRow n row) = List.replicate n row := by
  have hh : ∀ r ∈ List.replicate n row, r.length = d := by
    intro r hr
    rw [List.eq_of_mem_replicate hr, h]
  have hc := chunks_flatten d (List.replicate n row) hh
  rwa [List.length_replicate] at hc

theorem zipWith_replicate_collapse {α β γ : Type} (f : α → β → γ) (b : β) :
    ∀ (l : List α) (n : ℕ), l.length ≤ n →
      List.zipWith f l (List.replicate n b) = l.map (fun a => f a b) := by
  intro l
  induction l with
  | nil => intro n hn; simp
  | cons hd t ih =>
    intro n hn
    cases n with
    | zero => simp at hn
    | succ n2 =>
      show f hd b :: List.zipWith f t (List.replicate n2 b) = _
      rw [ih n2 (by simpa using hn)]
      rfl

theorem NB_X3_eq (m : NBModel) (x : Mat) (Hx : ∀ r ∈ x, r.length = m.n_dims) :
    reshape3 x.length m.n_labels m.n_dims (tile2 m.n_labels x).flatten
      = x.map (fun xi => List.replicate m.n_labels xi) := by
  unfold reshape3
  have h1 : ∀ r ∈ tile2 m.n_labels x, r.length = m.n_labels * m.n_dims := by
    intro r hr
    simp only [tile2, List.mem_map] at hr
    obtain ⟨xi, hxi, hrx⟩ := hr
    subst hrx
    simp [tileRow, List.length_flatten, List.map_replicate, List.sum_replicate,
      smul_eq_mul, Hx xi hxi]
  have h2 : (tile2 m.n_labels x).length = x.length := by simp [tile2]
  rw [← h2, chunks_flatten (m.n_labels * m.n_dims) (tile2 m.n_labels x) h1]
  simp only [tile2, List.map_map]
  apply List.map_congr_left
  intro xi hxi
  exact chunks_tileRow m.n_labels m.n_dims xi (Hx xi hxi)

theorem NB_log_pxz_eq (ops : TFMath) (m : NBModel) (x : Mat)
    (Hw : m.w.length = m.n_labels) (Hx : ∀ r ∈ x, r.length = m.n_dims) :
    log_p_x_given_z ops m x
      = x.map (fun xi => m.w.map (fun wk =>
          (List.zipWith (fun wcj xij => bernoulliLogProb ops (sigmoid ops wcj) xij)
            (List.zipWith (fun a b => a + b) wk m.c) xi).sum)) := by
  simp only [log_p_x_given_z]
  rw [NB_X3_eq m x Hx]
  simp only [List.map_map]
  apply List.map_congr_left
  intro xi hxi
  have hpl : (ewMap (sigmoid ops)
      (m.w.map (fun row => List.zipWith (fun a b => a + b) row m.c))).length ≤ m.n_labels := by
    simp [ewMap, Hw]
  show (List.zipWith (fun prow xrow => List.zipWith (bernoulliLogProb ops) prow xrow)
      (ewMap (sigmoid ops) (m.w.map (fun row => List.zipWith (fun a b => a + b) row m.c)))
      (List.replicate m.n_labels xi)).map (fun r => r.sum) = _
  rw [zipWith_replicate_collapse _ xi _ m.n_labels hpl]
  simp only [ewMap, List.map_map]
  apply List.map_congr_left
  intro wk hwk
  show (List.zipWith (bernoulliLogProb ops)
      ((List.zipWith (fun a b => a + b) wk m.c).map (sigmoid ops)) xi).sum = _
  rw [List.zipWith_map_left]

/-- C4: log_p_x computes, row by row, the textbook mixture-model
log-likelihood: the logsumexp over the categories of log_softmax(b)
plus the summed Bernoulli log-probabilities of the row under the
parameters sigmoid(w + c) of that category. -/
theorem nb_log_p_x_mixture_spec (ops : TFMath) (m : NBModel) (x : Mat)
    (Hw : m.w.length = m.n_labels) (Hx : ∀ r ∈ x, r.length = m.n_dims) :
    log_p_x ops m x = x.map (logPxSpecRow ops m) := by
  simp only [log_p_x]
  rw [NB_log_pxz_eq ops m x Hw Hx]
  simp only [List.map_map]
  apply List.map_congr_left
  intro xi hxi
  show logsumexp ops (List.zipWith (fun a b => a + b) (logSoftmax ops m.b)
      (m.w.map (fun wk =>
        (List.zipWith (fun wcj xij => bernoulliLogProb ops (sigmoid ops wcj) xij)
          (List.zipWith (fun a b => a + b) wk m.c) xi).sum))) = logPxSpecRow ops m xi
  rw [List.zipWith_map_right]
  rfl

theorem nb_log_p_x_mixture_spec_witness :
    log_p_x ⟨fun t => t, fun t => t⟩ ⟨[[0]], [0], [0], 1, 1⟩ [[1]]
      = [[1]].map (logPxSpecRow ⟨fun t => t, fun t => t⟩ ⟨[[0]], [0], [0], 1, 1⟩) :=
  nb_log_p_x_mixture_spec ⟨fun t => t, fun t => t⟩ ⟨[[0]], [0], [0], 1, 1⟩ [[1]] rfl
    (by intro r hr; simp only [List.mem_singleton] at hr; subst hr; rfl)
